import Mathlib

/-!
Verification of the Promise website blocker.

This file is a shallow embedding of the two scripts of the repository:
`popup/popup.js` (the group store and the URL validation/normalization
helpers) and `background/background.js` (pattern compilation and the
request-intercept rule updates).  JavaScript arrays become `List`,
fallible code (thrown `TypeError`s) becomes `Option`, and the small
pieces of browser API behaviour the scripts rely on (`Array.findIndex`,
`Array.splice`, `String.trim`, the hostname extraction of `new URL`) are
modelled explicitly as executable functions.
-/

namespace Promise

/-- A group object as built by popup.js `addGroup`:
`{ title, websites: [], active: true, expanded: true }`. -/
structure Group where
  title : String
  websites : List String
  active : Bool
  expanded : Bool
deriving DecidableEq, Repr

/- ## JavaScript array and string primitives used by the scripts -/

/-- JS `Array.prototype.findIndex`, without the `-1` encoding: the index of
the first element satisfying `p`, if any. -/
def findIndexOpt (p : α → Bool) : List α → Option Nat
  | [] => none
  | a :: l => if p a then some 0 else (findIndexOpt p l).map (· + 1)

/-- JS `Array.prototype.findIndex`: the first matching index, or `-1`. -/
def jsFindIndex (p : α → Bool) (l : List α) : Int :=
  match findIndexOpt p l with
  | some i => (i : Int)
  | none => -1

/-- JS `Array.prototype.indexOf`: the first index of `a`, or `-1`. -/
def jsIndexOf [BEq α] (a : α) (l : List α) : Int :=
  jsFindIndex (fun b => b == a) l

/-- JS `arr.splice(start, 1)`: a negative `start` counts from the end of the
array and is clamped at 0; a `start` past the end removes nothing. -/
def spliceOneAt (l : List α) (start : Int) : List α :=
  let s : Nat := if start < 0 then (start + l.length).toNat else start.toNat
  l.eraseIdx s

/-- JS `String.prototype.trim`: leading and trailing whitespace removed
(the JS whitespace class is modelled by `Char.isWhitespace`). -/
def jsTrim (s : String) : String :=
  String.mk (((s.data.dropWhile Char.isWhitespace).reverse.dropWhile Char.isWhitespace).reverse)

/- ## GroupStore: the mutation operations of popup.js -/

/-- The user-visible messages raised by the store operations
(`showMessage('Group already exists', ...)` in popup.js). -/
inductive StoreMsg where
  | duplicateGroup
deriving DecidableEq, Repr

/-- Result of popup.js `addGroup`: the group collection afterwards, the
message shown (if any), and whether `saveGroups` was called. -/
structure AddGroupResult where
  groups : List Group
  message : Option StoreMsg
  saved : Bool
deriving DecidableEq, Repr

/-- popup.js `addGroup`: the entered title is trimmed; a falsy (empty)
trimmed title is a silent no-op; an existing title shows a message and
changes nothing; otherwise a new group `{title, websites: [], active: true,
expanded: true}` is pushed and the collection saved. -/
def addGroup (gs : List Group) (rawTitle : String) : AddGroupResult :=
  if jsTrim rawTitle = "" then ⟨gs, none, false⟩
  else if gs.any (fun g => g.title == jsTrim rawTitle) then ⟨gs, some .duplicateGroup, false⟩
  else ⟨gs ++ [⟨jsTrim rawTitle, [], true, true⟩], none, true⟩

/-- popup.js `removeGroup`: `findIndex` on the title followed by
`splice(groupIndex, 1)`; a missing title gives `groupIndex = -1`. -/
def removeGroup (gs : List Group) (groupTitle : String) : List Group :=
  spliceOneAt gs (jsFindIndex (fun g => g.title == groupTitle) gs)

/-- popup.js `addWebsiteToGroup`: locate the group by title; if the website
is not already in its list, push it and save, else only log.  `none` models
the `TypeError` thrown when no group has the given title (`groups[-1]` is
`undefined`). -/
def addWebsiteToGroup (website groupTitle : String) (gs : List Group) : Option (List Group) :=
  match findIndexOpt (fun g => g.title == groupTitle) gs with
  | none => none
  | some i =>
    match gs.get? i with
    | none => none
    | some g =>
      if g.websites.contains website then some gs
      else some (gs.set i { g with websites := g.websites ++ [website] })

/-- popup.js `removeWebsiteFromGroup`: locate the group by title, then
`indexOf` the website and `splice(websiteIndex, 1)`; an absent website gives
`indexOf = -1`, and `splice(-1, 1)` removes the last entry.  `none` models
the `TypeError` thrown when no group has the given title. -/
def removeWebsiteFromGroup (groupTitle website : String) (gs : List Group) : Option (List Group) :=
  match findIndexOpt (fun g => g.title == groupTitle) gs with
  | none => none
  | some i =>
    match gs.get? i with
    | none => none
    | some g =>
      some (gs.set i { g with websites := spliceOneAt g.websites (jsIndexOf website g.websites) })

/- ## GroupStore: load -/

/-- A JavaScript value found under the persisted `groups` key: absent
(`undefined` or `null`), an actual array of groups, or some other
(malformed) value carrying only its JS truthiness. -/
inductive JSListVal where
  | undef
  | listVal (gs : List Group)
  | otherVal (truthy : Bool)
deriving DecidableEq, Repr

/-- JS `a || b`: `b` when `a` is falsy, otherwise `a`.  An array is always
truthy, even when empty. -/
def jsOrElse (a b : JSListVal) : JSListVal :=
  match a with
  | .undef => b
  | .listVal gs => .listVal gs
  | .otherVal t => if t then .otherVal t else b

/-- The object that `browser.storage.local.get('groups')` resolves to. -/
structure StorageData where
  groups : JSListVal
deriving DecidableEq, Repr

/-- popup.js `loadGroups`: when the resolved `data` is defined it returns
`data.groups || []`; when `data` is `undefined` the function falls through
and returns `undefined` (`none`). -/
def loadGroups (data : Option StorageData) : Option JSListVal :=
  match data with
  | some d => some (jsOrElse d.groups (.listVal []))
  | none => none

/- ## BlockRuleCompiler and RuleStateMachine: background.js -/

/-- The exact-host match pattern emitted for one website. -/
def exactPattern (site : String) : String := "*://" ++ site ++ "/*"

/-- The any-subdomain match pattern emitted for one website. -/
def subdomainPattern (site : String) : String := "*://*." ++ site ++ "/*"

/-- background.js: the websites of all active groups, in order
(`groups.filter(g => g.active).flatMap(g => g.websites)`). -/
def activeWebsites (groups : List Group) : List String :=
  (groups.filter (fun g => g.active)).flatMap (fun g => g.websites)

/-- background.js `urlPatterns` (the spec's `compile`): two patterns per
website of each active group, in order, with no deduplication. -/
def compile (groups : List Group) : List String :=
  (activeWebsites groups).flatMap (fun site => [exactPattern site, subdomainPattern site])

/-- The observable calls background.js makes on
`browser.webRequest.onBeforeRequest`. -/
inductive RuleAction where
  | removeRule
  | installRule (patterns : List String)
deriving DecidableEq, Repr

/-- One run of background.js `loadAndBlockWebsites`: the value of
`currentListener` afterwards (`some P` when a rule scoped to pattern set `P`
is installed, `none` when no rule is installed) and the listener API calls
performed, in order. -/
structure StepResult where
  listenerState : Option (List String)
  actions : List RuleAction
deriving DecidableEq, Repr

/-- background.js `loadAndBlockWebsites`, as a function of the previous
`currentListener` state and the loaded groups: when some active website
exists, any current listener is removed and a new one is always added; when
none exists, any current listener is removed. -/
def loadAndBlockWebsites (st : Option (List String)) (groups : List Group) : StepResult :=
  let websites := activeWebsites groups
  if websites.length > 0 then
    let urlPatterns := websites.flatMap (fun site => [exactPattern site, subdomainPattern site])
    { listenerState := some urlPatterns
      actions := (match st with
        | some _ => [RuleAction.removeRule]
        | none => []) ++ [RuleAction.installRule urlPatterns] }
  else
    match st with
    | some _ => { listenerState := none, actions := [RuleAction.removeRule] }
    | none => { listenerState := none, actions := [] }

/- ## DomainNormalizer: URL parsing helpers of popup.js -/

/-- First occurrence of the marker `://` in a character list: the part
before it and the rest after it, or `none` when the marker is absent.  This
is the test behind JS `url.includes('://')` and the scheme/remainder split
of the URL parser model below. -/
def breakOnScheme : List Char → Option (List Char × List Char)
  | [] => none
  | c :: rest =>
    if c = ':' ∧ rest.take 2 = ['/', '/'] then some ([], rest.drop 2)
    else (breakOnScheme rest).map (fun p => (c :: p.1, p.2))

/-- URL scheme syntax checked by the browser URL parser:
`ALPHA (ALPHA | DIGIT | "+" | "-" | ".")*`. -/
def schemeOk (s : List Char) : Bool :=
  match s with
  | [] => false
  | c :: rest => c.isAlpha && rest.all (fun d => d.isAlpha || d.isDigit || d = '+' || d = '-' || d = '.')

/-- Everything after the last `@` (the userinfo separator of a URL
authority); the whole list when there is no `@`. -/
def afterLastAt (l : List Char) : List Char :=
  (l.reverse.takeWhile (fun c => !(c = '@'))).reverse

/-- Model of the hostname extraction of the browser builtin `new URL(u)`
(WHATWG URL): the authority runs from after `://` to the first `/`, `?` or
`#`; userinfo up to the last `@` is dropped; a port after `:` is dropped;
parsing fails (`new URL` throws a `TypeError`) when the input has no `://`,
a malformed scheme, an empty host, or a forbidden host character such as a
space.  IPv6 bracket hosts, percent-decoding and IDNA case folding are
outside the inputs the scripts deal with and are not modelled. -/
def urlHostname (url : String) : Option String :=
  match breakOnScheme url.data with
  | none => none
  | some (scheme, remainder) =>
    if schemeOk scheme then
      let authority := remainder.takeWhile (fun c => !(c = '/' || c = '?' || c = '#'))
      let host := (afterLastAt authority).takeWhile (fun c => !(c = ':'))
      if host.isEmpty || host.any (fun c => c = ' ' || c = '\t' || c = '\n' || c = '\r' ||
          c = '<' || c = '>' || c = '[' || c = ']' || c = '^' || c = '|' || c = '%' || c = '\\')
      then none
      else some (String.mk host)
    else none

/-- popup.js `url.includes('://') ? url : 'http://' + url`, shared by
`isValidUrl` and `getBaseUrl`. -/
def ensureScheme (url : String) : String :=
  if (breakOnScheme url.data).isSome then url else "http://" ++ url

/-- JS `str.split(sep)` for a one-character separator: `""` splits to
`[""]`, and leading, trailing or repeated separators produce empty parts. -/
def splitOnChar (sep : Char) : List Char → List (List Char)
  | [] => [[]]
  | c :: rest =>
    if c = sep then [] :: splitOnChar sep rest
    else
      match splitOnChar sep rest with
      | [] => [[c]]
      | h :: t => (c :: h) :: t

/-- JS `parts.join('.')`. -/
def joinDots : List (List Char) → List Char
  | [] => []
  | [p] => p
  | p :: ps => p ++ '.' :: joinDots ps

/-- popup.js `getBaseUrl` (the spec's `normalize`): hostname of the
scheme-completed URL, split on `.`, last two parts (`slice(-2)`) joined with
`.`.  `none` models the uncaught `TypeError` propagated when `new URL`
throws. -/
def getBaseUrl (url : String) : Option String :=
  match urlHostname (ensureScheme url) with
  | none => none
  | some h =>
    let hostnameParts := splitOnChar '.' h.data
    some (String.mk (joinDots (hostnameParts.drop (hostnameParts.length - 2))))

/-- The character class `[a-zA-Z0-9-_]` of the popup.js domain regex. -/
def labelChar (c : Char) : Bool := c.isAlpha || c.isDigit || c = '-' || c = '_'

/-- popup.js `domainPattern` regex
`^(?!:\/\/)([a-zA-Z0-9-_]+\.)+[a-zA-Z]{2,11}$`, phrased over the dot-split
parts of the hostname: because a label never contains `.`, the regex
matches exactly when the split has at least two parts, every part but the
last is a non-empty run of label characters, and the last part is 2 to 11
ASCII letters.  The lookahead `(?!://)` is subsumed, since `:` and `/` are
not label characters. -/
def domainPatternTest (hostname : String) : Bool :=
  let parts := splitOnChar '.' hostname.data
  decide (2 ≤ parts.length) &&
  parts.dropLast.all (fun p => !p.isEmpty && p.all labelChar) &&
  (let tld := parts.getLastD []
   tld.all Char.isAlpha && decide (2 ≤ tld.length) && decide (tld.length ≤ 11))

/-- popup.js `isValidUrl` (the spec's `validate`): parse with the default
scheme completed, test the hostname against the domain regex; any parse
error is caught and yields `false`. -/
def isValidUrl (url : String) : Bool :=
  match urlHostname (ensureScheme url) with
  | some hostname => domainPatternTest hostname
  | none => false

/-- The spec-side reading of the accepted hostnames: one or more label
segments, each a non-empty run of label characters followed by a dot, then
an alphabetic top-level segment of length 2 to 11 — stated as a
decomposition of the dot-split hostname. -/
def SpecDomainOk (hostname : String) : Prop :=
  ∃ labels tld, splitOnChar '.' hostname.data = labels ++ [tld] ∧
    labels ≠ [] ∧
    (∀ l ∈ labels, l ≠ [] ∧ ∀ c ∈ l, labelChar c = true) ∧
    (∀ c ∈ tld, c.isAlpha = true) ∧ 2 ≤ tld.length ∧ tld.length ≤ 11

/- ## Helper lemmas about the modelled JS primitives -/

theorem findIndexOpt_lt_length {α : Type u} {p : α → Bool} {l : List α} :
    ∀ {i : Nat}, findIndexOpt p l = some i → i < l.length := by
  induction l with
  | nil => intro i h; simp [findIndexOpt] at h
  | cons a t ih =>
    intro i h
    by_cases hp : p a = true
    · simp [findIndexOpt, hp] at h
      simp [← h]
    · simp [findIndexOpt, hp] at h
      obtain ⟨j, hj, rfl⟩ := h
      have := ih hj
      simp
      omega

theorem findIndexOpt_get {α : Type u} {p : α → Bool} {l : List α} :
    ∀ {i : Nat} {a : α}, findIndexOpt p l = some i → l.get? i = some a → p a = true := by
  induction l with
  | nil => intro i a h _; simp [findIndexOpt] at h
  | cons x t ih =>
    intro i a h hg
    by_cases hp : p x = true
    · simp [findIndexOpt, hp] at h
      rw [← h] at hg
      simp at hg
      rw [← hg]
      exact hp
    · simp [findIndexOpt, hp] at h
      obtain ⟨j, hj, rfl⟩ := h
      exact ih hj (by simpa using hg)

theorem findIndexOpt_set {α : Type u} {p : α → Bool} {l : List α} :
    ∀ {i : Nat} {a : α}, findIndexOpt p l = some i → p a = true →
      findIndexOpt p (l.set i a) = some i := by
  induction l with
  | nil => intro i a h _; simp [findIndexOpt] at h
  | cons x t ih =>
    intro i a h hpa
    by_cases hp : p x = true
    · simp [findIndexOpt, hp] at h
      rw [← h]
      simp [List.set, findIndexOpt, hpa]
    · simp [findIndexOpt, hp] at h
      obtain ⟨j, hj, rfl⟩ := h
      simp [List.set, findIndexOpt, hp, ih hj hpa]

theorem get?_set_self {α : Type u} : ∀ (l : List α) (i : Nat) (a : α), i < l.length →
    (l.set i a).get? i = some a
  | [], i, _, h => by simp at h
  | _ :: _, 0, _, _ => rfl
  | x :: t, i + 1, a, h => by
    simp only [List.set, List.get?_cons_succ]
    exact get?_set_self t i a (by simpa using h)

theorem set_get_self {α : Type u} : ∀ (l : List α) (i : Nat) (a : α), l.get? i = some a →
    l.set i a = l
  | [], _, _, h => by simp at h
  | x :: t, 0, a, h => by
    simp at h
    simp [List.set, h]
  | x :: t, i + 1, a, h => by
    rw [List.get?_cons_succ] at h
    simp [List.set, set_get_self t i a h]

theorem findIndexOpt_beq_none {α : Type u} [BEq α] [LawfulBEq α] (w : α) :
    ∀ (l : List α), w ∉ l → findIndexOpt (fun b => b == w) l = none
  | [], _ => rfl
  | a :: l, h => by
    have h1 : (a == w) = false := by
      simp only [beq_eq_false_iff_ne, ne_eq]
      intro e
      exact h (e ▸ List.mem_cons_self a l)
    simp [findIndexOpt, h1,
      findIndexOpt_beq_none w l (fun hm => h (List.mem_cons_of_mem a hm))]

theorem jsIndexOf_neg_one {α : Type u} [BEq α] [LawfulBEq α] (w : α) (l : List α)
    (h : w ∉ l) : jsIndexOf w l = -1 := by
  unfold jsIndexOf jsFindIndex
  rw [findIndexOpt_beq_none w l h]

theorem spliceOneAt_neg_one {α : Type u} : ∀ (l : List α), spliceOneAt l (-1) = l.dropLast
  | [] => rfl
  | a :: t => by
    unfold spliceOneAt
    have hlt : ((-1 : Int) < 0) := by omega
    rw [if_pos hlt]
    have hn : ((-1 : Int) + (a :: t).length).toNat = t.length := by
      simp only [List.length_cons]
      omega
    rw [hn, ← List.dropLast_eq_eraseIdx (by simp)]

/- ## Claim theorems: the group store -/

/-- C3 (counterexample): with a single group titled "A", `removeGroup "B"`
does not leave the collection unchanged — it deletes the group "A". -/
theorem removeGroup_missing_cex :
    removeGroup [⟨"A", [], true, true⟩] "B" = [] ∧
    removeGroup [⟨"A", [], true, true⟩] "B" ≠ [⟨"A", [], true, true⟩] := by
  decide

/-- C3 (amended): `removeGroup` removes the first group whose title matches;
when no title matches, `findIndex` yields -1 and `splice(-1, 1)` removes the
last group, so the call is a no-op only on an empty collection. -/
theorem removeGroup_amended (gs : List Group) (t : String) :
    removeGroup gs t =
      match findIndexOpt (fun g => g.title == t) gs with
      | some i => gs.eraseIdx i
      | none => gs.dropLast := by
  unfold removeGroup jsFindIndex
  cases hfi : findIndexOpt (fun g => g.title == t) gs with
  | some i =>
    unfold spliceOneAt
    have hnn : ¬ ((i : Int) < 0) := by omega
    rw [if_neg hnn]
    simp
  | none => exact spliceOneAt_neg_one gs

/-- C4 (counterexample): when the persisted `groups` key holds a truthy
malformed value (not an array of groups), `loadGroups` returns that value
unchanged instead of the empty sequence. -/
theorem loadGroups_malformed_cex :
    loadGroups (some ⟨JSListVal.otherVal true⟩) = some (JSListVal.otherVal true) ∧
    loadGroups (some ⟨JSListVal.otherVal true⟩) ≠ some (JSListVal.listVal []) := by
  decide

/-- C4 (amended): when the resolved storage object is defined, `loadGroups`
returns the stored sequence if one is stored, and the empty sequence when
the key is absent or holds a falsy value; a truthy malformed value is
returned as-is, and an undefined storage result yields undefined rather
than a sequence. -/
theorem loadGroups_amended :
    (∀ gs, loadGroups (some ⟨JSListVal.listVal gs⟩) = some (JSListVal.listVal gs)) ∧
    loadGroups (some ⟨JSListVal.undef⟩) = some (JSListVal.listVal []) ∧
    loadGroups (some ⟨JSListVal.otherVal false⟩) = some (JSListVal.listVal []) ∧
    loadGroups none = none :=
  ⟨fun _ => rfl, rfl, rfl, rfl⟩

/-- C7: a second `addGroup "Work"` when a group titled "Work" exists leaves
the collection unchanged, triggers no save, and signals the duplicate-group
message; when no such group exists, `addGroup "Work"` appends
`{title := "Work", websites := [], active := true, expanded := true}` and
saves. -/
theorem addGroup_duplicate_spec (gs : List Group) :
    (gs.any (fun g => g.title == "Work") = true →
      addGroup gs "Work" = ⟨gs, some StoreMsg.duplicateGroup, false⟩) ∧
    (gs.any (fun g => g.title == "Work") = false →
      addGroup gs "Work" = ⟨gs ++ [⟨"Work", [], true, true⟩], none, true⟩) := by
  have ht : jsTrim "Work" = "Work" := by decide
  have hne : ¬ (jsTrim "Work" = "") := by decide
  constructor
  · intro h
    unfold addGroup
    rw [if_neg hne, ht, if_pos h]
  · intro h
    unfold addGroup
    rw [if_neg hne, ht, if_neg (by rw [h]; exact Bool.false_ne_true)]

/-- C7 (witness): concrete duplicate rejection and concrete append. -/
theorem addGroup_duplicate_spec_witness :
    addGroup [⟨"Work", [], true, true⟩] "Work" =
      ⟨[⟨"Work", [], true, true⟩], some StoreMsg.duplicateGroup, false⟩ ∧
    addGroup [] "Work" = ⟨[⟨"Work", [], true, true⟩], none, true⟩ :=
  ⟨(addGroup_duplicate_spec [⟨"Work", [], true, true⟩]).1 (by decide),
   (addGroup_duplicate_spec []).2 (by decide)⟩

/-- `jsTrim` of an all-whitespace string is empty. -/
theorem jsTrim_eq_empty {s : String} (h : ∀ c ∈ s.data, c.isWhitespace = true) :
    jsTrim s = "" := by
  unfold jsTrim
  rw [List.dropWhile_eq_nil_iff.mpr h]
  rfl

/-- C9: an `addGroup` whose raw title is empty or all whitespace trims it to
the empty string, which is falsy, so the call changes nothing, saves
nothing, and shows no message. -/
theorem addGroup_blank_noop (gs : List Group) (raw : String)
    (h : ∀ c ∈ raw.data, c.isWhitespace = true) :
    addGroup gs raw = ⟨gs, none, false⟩ := by
  unfold addGroup
  rw [jsTrim_eq_empty h, if_pos rfl]

/-- C9 (witness): an all-space title is a silent no-op. -/
theorem addGroup_blank_noop_witness :
    addGroup [] "   " = ⟨[], none, false⟩ :=
  addGroup_blank_noop [] "   " (by decide)

/-- C10: when the targeted group exists but the website is not in its
(non-empty) list, `indexOf` yields -1 and `splice(-1, 1)` removes the last
website, so the group's list shrinks instead of staying unchanged. -/
theorem removeWebsite_missing_removes_last (gs : List Group) (i : Nat) (g : Group)
    (title w : String)
    (hfind : findIndexOpt (fun g => g.title == title) gs = some i)
    (hget : gs.get? i = some g)
    (hne : g.websites ≠ [])
    (hnotin : w ∉ g.websites) :
    removeWebsiteFromGroup title w gs =
      some (gs.set i { g with websites := g.websites.dropLast }) ∧
    gs.set i { g with websites := g.websites.dropLast } ≠ gs := by
  constructor
  · simp only [removeWebsiteFromGroup, hfind, hget,
      jsIndexOf_neg_one w g.websites hnotin, spliceOneAt_neg_one]
  · intro heq
    have hgot := get?_set_self gs i { g with websites := g.websites.dropLast }
      (findIndexOpt_lt_length hfind)
    rw [heq, hget] at hgot
    have hw : g.websites.dropLast = g.websites :=
      (congrArg Group.websites (Option.some.inj hgot)).symm
    have hlen := congrArg List.length hw
    rw [List.length_dropLast] at hlen
    have hpos : 0 < g.websites.length := List.length_pos.mpr hne
    omega

/-- C10 (witness): removing an absent website from `["a.com", "b.com"]`
drops `"b.com"`. -/
theorem removeWebsite_missing_witness :
    removeWebsiteFromGroup "G" "zzz.com" [⟨"G", ["a.com", "b.com"], true, true⟩] =
      some [⟨"G", ["a.com"], true, true⟩] :=
  (removeWebsite_missing_removes_last [⟨"G", ["a.com", "b.com"], true, true⟩] 0
    ⟨"G", ["a.com", "b.com"], true, true⟩ "G" "zzz.com"
    (by decide) (by decide) (by decide) (by decide)).1.trans (by decide)

/-- C8: starting from any collection in which the group "Work" has an empty
website list, adding "twitter.com" to it and then removing "twitter.com"
from it returns the collection to exactly its original state. -/
theorem website_roundtrip (gs : List Group) (i : Nat) (g : Group)
    (hfind : findIndexOpt (fun g => g.title == "Work") gs = some i)
    (hget : gs.get? i = some g) (hempty : g.websites = []) :
    addWebsiteToGroup "twitter.com" "Work" gs =
      some (gs.set i { g with websites := ["twitter.com"] }) ∧
    removeWebsiteFromGroup "Work" "twitter.com"
        (gs.set i { g with websites := ["twitter.com"] }) =
      some gs := by
  have hlt : i < gs.length := findIndexOpt_lt_length hfind
  constructor
  · simp only [addWebsiteToGroup, hfind, hget, hempty]
    rw [if_neg (by decide : ¬ (([] : List String).contains "twitter.com" = true))]
    rw [List.nil_append]
  · have hp : (fun gg : Group => gg.title == "Work") { g with websites := ["twitter.com"] } = true := by
      simpa using findIndexOpt_get hfind hget
    have hfind2 := findIndexOpt_set hfind hp
    have hget2 := get?_set_self gs i { g with websites := ["twitter.com"] } hlt
    have hsplice : spliceOneAt ["twitter.com"] (jsIndexOf "twitter.com" ["twitter.com"]) =
        ([] : List String) := by decide
    simp only [removeWebsiteFromGroup, hfind2, hget2, hsplice]
    rw [List.set_set]
    have hg : { g with websites := ([] : List String) } = g := by
      cases g
      simp_all
    rw [hg]
    rw [set_get_self gs i g hget]

/-- C8 (witness): the concrete round trip on a one-group collection. -/
theorem website_roundtrip_witness :
    addWebsiteToGroup "twitter.com" "Work" [⟨"Work", [], true, true⟩] =
      some [⟨"Work", ["twitter.com"], true, true⟩] ∧
    removeWebsiteFromGroup "Work" "twitter.com" [⟨"Work", ["twitter.com"], true, true⟩] =
      some [⟨"Work", [], true, true⟩] := by
  have h := website_roundtrip [⟨"Work", [], true, true⟩] 0 ⟨"Work", [], true, true⟩
    (by decide) (by decide) rfl
  exact ⟨h.1.trans (by decide), (by decide : removeWebsiteFromGroup "Work" "twitter.com"
    [⟨"Work", ["twitter.com"], true, true⟩] = removeWebsiteFromGroup "Work" "twitter.com"
    ([⟨"Work", [], true, true⟩].set 0 ⟨"Work", ["twitter.com"], true, true⟩)).trans h.2⟩

/- ## Claim theorems: pattern compilation and the rule state machine -/

/-- C1 (counterexample): with the website "x.com" in two active groups, the
emitted pattern list contains the exact pattern for "x.com" twice — the
result is not deduplicated. -/
theorem compile_dup_cex :
    List.count "*://x.com/*"
      (compile [⟨"A", ["x.com"], true, true⟩, ⟨"B", ["x.com"], true, true⟩]) = 2 ∧
    ¬ (compile [⟨"A", ["x.com"], true, true⟩, ⟨"B", ["x.com"], true, true⟩]).Nodup := by
  decide

/-- C1 (amended): `compile` emits, for each group with `active = true` and
each website `w` of that group, the exact pattern and the subdomain pattern
for `w`, and nothing else — as a membership characterization; occurrences
are however not deduplicated across groups, so a pattern appears once per
occurrence of its website among active groups. -/
theorem compile_mem_iff (groups : List Group) (p : String) :
    p ∈ compile groups ↔
      ∃ g ∈ groups, g.active = true ∧ ∃ w ∈ g.websites,
        p = exactPattern w ∨ p = subdomainPattern w := by
  simp only [compile, activeWebsites, List.mem_flatMap, List.mem_filter]
  constructor
  · rintro ⟨site, ⟨g, ⟨hg, hact⟩, hsite⟩, hp⟩
    exact ⟨g, hg, hact, site, hsite, by simpa using hp⟩
  · rintro ⟨g, hg, hact, w, hw, hp⟩
    exact ⟨w, ⟨g, ⟨hg, hact⟩, hw⟩, by simpa using hp⟩

/-- C2 (counterexample): in state `Installed(P)` with the groups unchanged
(so the recomputed pattern set equals `P` and is non-empty), a change event
is not a no-op: the listener is removed and re-added. -/
theorem loadAndBlock_noop_cex :
    (loadAndBlockWebsites (some (compile [⟨"A", ["x.com"], true, true⟩]))
        [⟨"A", ["x.com"], true, true⟩]).actions =
      [RuleAction.removeRule,
       RuleAction.installRule (compile [⟨"A", ["x.com"], true, true⟩])] ∧
    (loadAndBlockWebsites (some (compile [⟨"A", ["x.com"], true, true⟩]))
        [⟨"A", ["x.com"], true, true⟩]).actions ≠ [] ∧
    compile [⟨"A", ["x.com"], true, true⟩] ≠ [] := by
  decide

/-- C2 (amended): whenever some active website exists, a change event always
uninstalls the current intercept rule (when one is installed) and installs a
fresh rule scoped to the recomputed pattern set — even when that set equals
the currently installed one; the machine never takes the no-op transition
for non-empty pattern sets. -/
theorem loadAndBlockWebsites_reinstalls (st : Option (List String)) (groups : List Group)
    (h : activeWebsites groups ≠ []) :
    loadAndBlockWebsites st groups =
      { listenerState := some (compile groups)
        actions := (match st with
          | some _ => [RuleAction.removeRule]
          | none => []) ++ [RuleAction.installRule (compile groups)] } := by
  have hpos : 0 < (activeWebsites groups).length := List.length_pos.mpr h
  simp only [loadAndBlockWebsites, compile, if_pos hpos]

/-- C2 (witness): concrete reinstall with the pattern set unchanged. -/
theorem loadAndBlockWebsites_reinstalls_witness :
    activeWebsites [⟨"A", ["x.com"], true, true⟩] ≠ [] ∧
    loadAndBlockWebsites (some ["*://x.com/*", "*://*.x.com/*"])
        [⟨"A", ["x.com"], true, true⟩] =
      { listenerState := some ["*://x.com/*", "*://*.x.com/*"]
        actions := [RuleAction.removeRule,
          RuleAction.installRule ["*://x.com/*", "*://*.x.com/*"]] } := by
  refine ⟨by decide, ?_⟩
  exact (loadAndBlockWebsites_reinstalls (some ["*://x.com/*", "*://*.x.com/*"])
    [⟨"A", ["x.com"], true, true⟩] (by decide)).trans (by decide)

/- ## Claim theorems: DomainNormalizer -/

theorem splitOnChar_ne_nil (sep : Char) : ∀ (l : List Char), splitOnChar sep l ≠ []
  | [] => by simp [splitOnChar]
  | c :: rest => by
    by_cases hc : c = sep
    · simp [splitOnChar, hc]
    · simp only [splitOnChar, if_neg hc]
      cases splitOnChar sep rest with
      | nil => simp
      | cons h t => simp

/-- C5: whenever the browser URL parser accepts the (scheme-completed) raw
input and produces a hostname whose dot-split parts end with labels `a` and
`b`, `getBaseUrl` returns exactly the join `a.b` of those last two labels. -/
theorem getBaseUrl_spec (url hstr : String) (a b : List Char)
    (hu : urlHostname (ensureScheme url) = some hstr)
    (hsplit : (splitOnChar '.' hstr.data).reverse.take 2 = [b, a]) :
    getBaseUrl url = some (String.mk (a ++ '.' :: b)) := by
  have hstep : getBaseUrl url =
      some (String.mk (joinDots ((splitOnChar '.' hstr.data).drop
        ((splitOnChar '.' hstr.data).length - 2)))) := by
    unfold getBaseUrl
    rw [hu]
  rw [hstep]
  set parts := splitOnChar '.' hstr.data with hparts
  have h1 : parts.reverse = [b, a] ++ parts.reverse.drop 2 := by
    conv_lhs => rw [← List.take_append_drop 2 parts.reverse]
    rw [hsplit]
  have hdecomp : parts = (parts.reverse.drop 2).reverse ++ [a, b] := by
    conv_lhs => rw [← parts.reverse_reverse, h1]
    rw [List.reverse_append]
    simp
  rw [hdecomp]
  have hlen : ((parts.reverse.drop 2).reverse ++ [a, b]).length - 2 =
      (parts.reverse.drop 2).reverse.length := by
    simp
  rw [hlen, List.drop_left]
  rfl

/-- C5 (witness): `normalize("https://sub.example.com/path") = "example.com"`. -/
theorem getBaseUrl_spec_witness :
    urlHostname (ensureScheme "https://sub.example.com/path") = some "sub.example.com" ∧
    getBaseUrl "https://sub.example.com/path" = some "example.com" := by
  refine ⟨by decide, ?_⟩
  exact (getBaseUrl_spec "https://sub.example.com/path" "sub.example.com"
    "example".data "com".data (by decide) (by decide)).trans (by decide)

/-- The executable regex test coincides with the spec-side description of
the accepted hostnames. -/
theorem domainPatternTest_iff (h : String) :
    domainPatternTest h = true ↔ SpecDomainOk h := by
  unfold domainPatternTest SpecDomainOk
  have hne := splitOnChar_ne_nil '.' h.data
  constructor
  · intro ht
    simp only [Bool.and_eq_true, decide_eq_true_eq, List.all_eq_true] at ht
    obtain ⟨⟨hlen, hlab⟩, ⟨htld1, htld2⟩, htld3⟩ := ht
    have hG : (splitOnChar '.' h.data).getLastD [] = (splitOnChar '.' h.data).getLast hne := by
      rw [List.getLastD_eq_getLast?, List.getLast?_eq_getLast _ hne]
      rfl
    refine ⟨(splitOnChar '.' h.data).dropLast, (splitOnChar '.' h.data).getLastD [], ?_, ?_, ?_, ?_, ?_, ?_⟩
    · rw [hG, List.dropLast_append_getLast hne]
    · intro e
      have := congrArg List.length e
      rw [List.length_dropLast] at this
      simp at this
      omega
    · intro l hl
      have := hlab l hl
      simp only [Bool.and_eq_true, List.all_eq_true, Bool.not_eq_true'] at this
      exact ⟨List.isEmpty_eq_false.mp this.1, this.2⟩
    · exact htld1
    · exact htld2
    · exact htld3
  · rintro ⟨labels, tld, hsplit, hlne, hlab, htla, h2, h11⟩
    rw [hsplit]
    simp only [List.dropLast_concat, List.getLastD_concat, Bool.and_eq_true,
      decide_eq_true_eq, List.all_eq_true]
    refine ⟨⟨?_, ?_⟩, ⟨?_, h2⟩, h11⟩
    · have : labels.length ≠ 0 := fun e => hlne (List.length_eq_zero.mp e)
      simp
      omega
    · intro p hp
      obtain ⟨hp1, hp2⟩ := hlab p hp
      simp only [Bool.and_eq_true, List.all_eq_true, Bool.not_eq_true']
      exact ⟨List.isEmpty_eq_false.mpr hp1, hp2⟩
    · exact htla

/-- C6: `isValidUrl` accepts exactly the inputs whose (scheme-completed)
parse yields a hostname made of one or more label segments followed by an
alphabetic top-level segment of length 2 to 11; it returns false on any
parse error; in particular "not a url" is rejected and "example.com" is
accepted. -/
theorem isValidUrl_spec :
    (∀ raw, isValidUrl raw = true ↔
      ∃ h, urlHostname (ensureScheme raw) = some h ∧ SpecDomainOk h) ∧
    isValidUrl "not a url" = false ∧ isValidUrl "example.com" = true := by
  refine ⟨fun raw => ?_, by decide, by decide⟩
  unfold isValidUrl
  cases hu : urlHostname (ensureScheme raw) with
  | none => simp
  | some hn => simp [domainPatternTest_iff]

end Promise
